import Mathlib

/-!
Verification of the diagnostic conversation engine of the `plant_id`
repository (Rust).  The definitions below are a shallow embedding of
`src/adapters/sandbox_executor.rs`, `src/services/diagnosis_service.rs`,
`src/domain/diagnosis_session.rs` and `src/domain/enums.rs`.

Modelling conventions:
* Rust `&str` values manipulated by the extractor are modelled as `List Char`
  (`Str`).  All string patterns involved (` ``` `, ` ```json `, `{`, `}`) are
  ASCII, so byte indices in the Rust code and character indices in the model
  coincide on every input, including the out-of-range slice condition.
* `serde_json::Value` is modelled by the inductive `Json`.  Objects are
  association lists; `serde_json`'s map insert (replace an existing key,
  otherwise add) is `insertField`.  No claim depends on key iteration order.
* `serde_json::from_str` is an external library function; the extractor is
  parameterised over it (`parse : Str → Option Json`).
* The repository layer (database) is modelled by explicitly threading the
  persisted session value; `diagnosis_repo.update` is the points where the
  in-memory session is copied into the persisted one.  `Utc::now()` is an
  explicit natural-number clock, incremented at each cycle step.
* The AI adapter is modelled by the list of raw responses it returns on
  successive calls; an exhausted list models an upstream AI failure.
* A Rust panic (out-of-range slice, `unwrap` on `None`) is modelled as an
  explicit outcome, distinct from an `anyhow` error.
-/

namespace PlantId

/-- Characters of a Rust `&str`. -/
abbrev Str := List Char

/-- Model of `serde_json::Value`. -/
inductive Json where
  | null
  | bool (b : Bool)
  | num (n : Int)
  | str (s : String)
  | arr (items : List Json)
  | obj (fields : List (String × Json))

/-- `serde_json`'s `Value::index` / `Value::get` for a string key: field
lookup on objects, `Null` (resp. nothing) otherwise. -/
def Json.getField (j : Json) (key : String) : Json :=
  match j with
  | .obj fields =>
    match fields.lookup key with
    | some v => v
    | none => .null
  | _ => .null

/-- `Value::as_str`. -/
def Json.asStr : Json → Option String
  | .str s => some s
  | _ => none

/-- `Value::is_null`. -/
def Json.isNull : Json → Bool
  | .null => true
  | _ => false

/-- `serde_json::Map::insert`: replace the value of an existing key,
otherwise add the binding. -/
def insertField (fields : List (String × Json)) (key : String) (v : Json) :
    List (String × Json) :=
  match fields with
  | [] => [(key, v)]
  | (k, w) :: rest =>
    if k = key then (key, v) :: rest else (k, w) :: insertField rest key v

/-- `as_object_mut` followed by `insert`: a no-op on non-objects (the
surrounding `if let` fails). -/
def Json.setField (j : Json) (key : String) (v : Json) : Json :=
  match j with
  | .obj fields => .obj (insertField fields key v)
  | _ => j

/-- `DiagnosisStatus` (src/domain/enums.rs). -/
inductive DiagnosisStatus where
  | pendingUserInput
  | completed
  | cancelled
deriving DecidableEq

/-- `DiagnosisAction` (src/domain/enums.rs). -/
inductive DiagnosisAction where
  | getPlantVitals
  | logState
  | askUser
  | conclude
deriving DecidableEq

/-- `DiagnosisAction::from_str` (src/domain/enums.rs). -/
def DiagnosisAction.from_str (s : String) : Option DiagnosisAction :=
  match s with
  | "GET_PLANT_VITALS" => some .getPlantVitals
  | "LOG_STATE" => some .logState
  | "ASK_USER" => some .askUser
  | "CONCLUDE" => some .conclude
  | _ => none

/-- Rust `str::contains` for a non-empty pattern: some suffix starts with
the pattern. -/
def containsSeq (pat : Str) : Str → Bool
  | [] => pat.isEmpty
  | c :: rest => pat.isPrefixOf (c :: rest) || containsSeq pat rest

/-- Worker for `splitSeq`: scan the text, accumulating the current piece
(reversed); at each position where the pattern is a prefix, emit the piece
and skip the pattern (leftmost, non-overlapping, as Rust `str::split`). -/
def splitSeqGo (pat : Str) (s : Str) (acc : Str) : List Str :=
  match s with
  | [] => [acc.reverse]
  | c :: rest =>
    if h : pat ≠ [] ∧ pat.isPrefixOf (c :: rest) then
      acc.reverse :: splitSeqGo pat ((c :: rest).drop pat.length) []
    else
      splitSeqGo pat rest (c :: acc)
termination_by s.length
decreasing_by
  · have hlen : 0 < pat.length := List.length_pos.mpr h.1
    simp only [List.length_drop, List.length_cons]
    omega
  · simp only [List.length_cons]
    omega

/-- Rust `str::split` on a string pattern (the source only uses the
non-empty patterns ` ``` ` and ` ```json `). -/
def splitSeq (pat s : Str) : List Str :=
  splitSeqGo pat s []

/-- The whitespace predicate of `str::trim`, restricted to ASCII
(space/tab/CR/LF).  Rust's `char::is_whitespace` also strips other Unicode
whitespace; the fences and payload texts involved here are ASCII, so the
restriction is immaterial to the properties proved below. -/
def isWs (c : Char) : Bool :=
  c = ' ' || c = '\t' || c = '\n' || c = '\r'

/-- Rust `str::trim` (with `isWs` as the whitespace predicate). -/
def trimSeq (s : Str) : Str :=
  ((s.dropWhile isWs).reverse.dropWhile isWs).reverse

/-- Rust `str::find` for a single character. -/
def firstIdx (c : Char) (s : Str) : Option Nat :=
  s.findIdx? (· = c)

/-- Rust `str::rfind` for a single character. -/
def lastIdx (c : Char) (s : Str) : Option Nat :=
  (s.reverse.findIdx? (· = c)).map (fun r => s.length - 1 - r)

/-- The inclusive slice `&s[start..=stop]` (defined when `start ≤ stop + 1`;
otherwise the Rust indexing panics). -/
def sliceIncl (s : Str) (start stop : Nat) : Str :=
  (s.drop start).take (stop + 1 - start)

/-- The opening fence pattern `"```json"`. -/
def fenceJson : Str := "```json".toList

/-- The generic fence pattern `"```"`. -/
def fence3 : Str := "```".toList

/-- The backtick character (obtained from the fence pattern, for use in
proofs). -/
def tick : Char := fence3.headD ' '

/-- A model of `serde_json::from_str::<Value>`: the extractor and everything
above it is parameterised over the JSON grammar of the external library. -/
abbrev JsonParser := Str → Option Json

/-- Failure outcomes of `SandboxExecutor` (src/adapters/sandbox_executor.rs).
The Rust code reports failures as untyped `anyhow` errors; each constructor
corresponds to one distinct bail/context site.  `sliceOutOfRange` is not an
`anyhow` error but the panic of the inclusive slice `&response[start..=end]`
when `start > end + 1`. -/
inductive ExecErr where
  | parseFailed
  | sliceOutOfRange
  | missingActionField
  | invalidAction
  | missingPayload
  | invalidPayload
deriving DecidableEq

/-- `SandboxExecutor::parse_ai_response` (src/adapters/sandbox_executor.rs,
lines 64-106): direct parse; then the first ` ```json ` fenced block; then
the first generic ` ``` ` fenced block; then the substring from the first
`{` to the last `}` inclusive; otherwise fail.  In the Rust code
`split(p).nth(1)` is the text between the first and second occurrence of
`p`, and `.split(p).next()` on an iterator always yields the leading piece. -/
def parse_ai_response (parse : JsonParser) (response : Str) : Except ExecErr Json :=
  match parse response with
  | some j => .ok j
  | none =>
    if containsSeq fenceJson response then
      match (splitSeq fenceJson response).get? 1 with
      | none => .error .parseFailed
      | some piece =>
        match (splitSeq fence3 piece).head? with
        | none => .error .parseFailed
        | some inner =>
          match parse (trimSeq inner) with
          | some j => .ok j
          | none => .error .parseFailed
    else if containsSeq fence3 response then
      match (splitSeq fence3 response).get? 1 with
      | none => .error .parseFailed
      | some piece =>
        match (splitSeq fence3 piece).head? with
        | none => .error .parseFailed
        | some inner =>
          match parse (trimSeq inner) with
          | some j => .ok j
          | none => .error .parseFailed
    else
      match firstIdx '{' response, lastIdx '}' response with
      | some start, some stop =>
        if start ≤ stop + 1 then
          match parse (sliceIncl response start stop) with
          | some j => .ok j
          | none => .error .parseFailed
        else
          .error .sliceOutOfRange
      | _, _ => .error .parseFailed

/-- `SandboxExecutor::validate_payload` (src/adapters/sandbox_executor.rs,
lines 109-140). -/
def validate_payload (action : DiagnosisAction) (payload : Json) :
    Except ExecErr Unit :=
  match action with
  | .getPlantVitals => .ok ()
  | .logState =>
    match payload with
    | .obj fields => if fields.isEmpty then .error .invalidPayload else .ok ()
    | _ => .error .invalidPayload
  | .askUser =>
    match (payload.getField "question").asStr with
    | some _ => .ok ()
    | none => .error .invalidPayload
  | .conclude =>
    match (payload.getField "finding").asStr with
    | none => .error .invalidPayload
    | some _ =>
      match (payload.getField "recommendation").asStr with
      | none => .error .invalidPayload
      | some _ => .ok ()

/-- `ExecutionResult` (src/adapters/sandbox_executor.rs). -/
structure ExecutionResult where
  action : DiagnosisAction
  payload : Json

/-- The post-extraction part of `SandboxExecutor::execute_code`
(src/adapters/sandbox_executor.rs, lines 42-60): resolve the action name,
require a non-null payload, then validate the payload. -/
def validate_response (response : Json) : Except ExecErr ExecutionResult :=
  match (response.getField "action").asStr with
  | none => .error .missingActionField
  | some actionStr =>
    match DiagnosisAction.from_str actionStr with
    | none => .error .invalidAction
    | some action =>
      let payload := response.getField "payload"
      if payload.isNull then .error .missingPayload
      else
        match validate_payload action payload with
        | .error e => .error e
        | .ok _ => .ok { action := action, payload := payload }

/-- `SandboxExecutor::execute_code` (src/adapters/sandbox_executor.rs,
lines 33-61). -/
def execute_code (parse : JsonParser) (code : Str) : Except ExecErr ExecutionResult :=
  match parse_ai_response parse code with
  | .error e => .error e
  | .ok response => validate_response response

/-- `ActionEffect` (src/adapters/sandbox_executor.rs). -/
inductive ActionEffect where
  | cont
  | fetchPlantVitals
  | askUser (question : String)
  | conclude (finding recommendation : String)

/-- The `LOG_STATE` arm of `execute_action`: merge the payload's keys into
`context.state`; each `if let` failure (context not an object, no `state`
object, payload not an object) silently leaves the context unchanged. -/
def apply_log_state (payload context : Json) : Json :=
  match context with
  | .obj fields =>
    match fields.lookup "state" with
    | some (.obj stateFields) =>
      match payload with
      | .obj payloadFields =>
        .obj (insertField fields "state"
          (.obj (payloadFields.foldl (fun acc kv => insertField acc kv.1 kv.2) stateFields)))
      | _ => context
    | _ => context
  | _ => context

/-- `SandboxExecutor::execute_action` (src/adapters/sandbox_executor.rs,
lines 144-186).  The Rust code calls `.unwrap()` on the extracted strings
for `ASK_USER` and `CONCLUDE`; `none` models that panic. -/
def execute_action (result : ExecutionResult) (context : Json) :
    Option (Json × ActionEffect) :=
  match result.action with
  | .getPlantVitals => some (context, .fetchPlantVitals)
  | .logState => some (apply_log_state result.payload context, .cont)
  | .askUser =>
    match (result.payload.getField "question").asStr with
    | some q => some (context, .askUser q)
    | none => none
  | .conclude =>
    match (result.payload.getField "finding").asStr,
          (result.payload.getField "recommendation").asStr with
    | some f, some r => some (context, .conclude f r)
    | _, _ => none

/-- A `{role, message}` entry of `conversation_history`. -/
def histEntry (role message : String) : Json :=
  .obj [("role", .str role), ("message", .str message)]

/-- `DiagnosisSession` (src/domain/diagnosis_session.rs).  Timestamps are
modelled by an external natural-number clock. -/
structure DiagnosisSession where
  id : String
  plant_id : String
  status : DiagnosisStatus
  diagnosis_context : Json
  created_at : Nat
  updated_at : Nat

/-- `DiagnosisSession::new` (src/domain/diagnosis_session.rs, lines 24-45).
The UUID and `Utc::now()` are external inputs, passed as parameters. -/
def DiagnosisSession.new (plant_id initial_prompt id : String) (now : Nat) :
    DiagnosisSession :=
  { id := id
    plant_id := plant_id
    status := .pendingUserInput
    diagnosis_context := .obj
      [("initial_prompt", .str initial_prompt),
       ("conversation_history", .arr [histEntry "user" initial_prompt]),
       ("state", .obj []),
       ("plant_vitals", .null)]
    created_at := now
    updated_at := now }

/-- `DiagnosisResponseDto` (src/dto.rs). -/
inductive DiagnosisResponseDto where
  | ask (diagnosis_id question : String)
  | conclude (diagnosis_id finding recommendation : String)

/-- Failure outcomes of the diagnosis service.  `aiUnavailable` models the
AI adapter failing (here: the stubbed response list being exhausted);
`actionPanicked` models the `unwrap` panic inside `execute_action`. -/
inductive SvcErr where
  | invalidState
  | aiUnavailable
  | exec (e : ExecErr)
  | actionPanicked
deriving DecidableEq

/-- Outcome of a `start_diagnosis`/`update_diagnosis` call: the returned
result, the session as held by the session store when the call ends, and
how many cycle iterations ran (i.e. how many AI responses were consumed). -/
structure CycleOut where
  result : Except SvcErr DiagnosisResponseDto
  persisted : DiagnosisSession
  iters : Nat

/-- The history push used by both `update_diagnosis` (user turn) and the
`ASK_USER` arm of `run_diagnosis_cycle` (assistant turn): append an entry to
`context.conversation_history`; each `if let` failure silently leaves the
context unchanged. -/
def pushHistory (context : Json) (role message : String) : Json :=
  match context with
  | .obj fields =>
    match fields.lookup "conversation_history" with
    | some (.arr entries) =>
      .obj (insertField fields "conversation_history"
        (.arr (entries ++ [histEntry role message])))
    | _ => context
  | _ => context

/-- `DiagnosisService::run_diagnosis_cycle` (src/services/diagnosis_service.rs,
lines 171-273).  `responses` are the successive raw texts produced by the AI
adapter; `plantVitals` is the `{name, care_schedule}` snapshot the plant
repository would return; `session` is the in-memory session, `persisted` the
one held by the session store.  The `Continue` and `FetchPlantVitals` arms
call `diagnosis_repo.update` before recursing, so they replace `persisted`
with the mutated session; an error propagates without any further commit. -/
def run_diagnosis_cycle (parse : JsonParser) (plantVitals : Json) :
    List Str → Nat → DiagnosisSession → DiagnosisSession → CycleOut
  | [], _, _, persisted => ⟨.error .aiUnavailable, persisted, 0⟩
  | response :: rest, clock, session, persisted =>
    match execute_code parse response with
    | .error e => ⟨.error (.exec e), persisted, 1⟩
    | .ok execResult =>
      match execute_action execResult session.diagnosis_context with
      | none => ⟨.error .actionPanicked, persisted, 1⟩
      | some (context', effect) =>
        match effect with
        | .cont =>
          let s := { session with diagnosis_context := context', updated_at := clock }
          let out := run_diagnosis_cycle parse plantVitals rest (clock + 1) s s
          ⟨out.result, out.persisted, out.iters + 1⟩
        | .fetchPlantVitals =>
          let s := { session with
            diagnosis_context := (context'.setField "plant_vitals" plantVitals),
            updated_at := clock }
          let out := run_diagnosis_cycle parse plantVitals rest (clock + 1) s s
          ⟨out.result, out.persisted, out.iters + 1⟩
        | .askUser q =>
          let s := { session with
            diagnosis_context := pushHistory context' "assistant" q,
            status := .pendingUserInput,
            updated_at := clock }
          ⟨.ok (.ask s.id q), s, 1⟩
        | .conclude f r =>
          let s := { session with
            diagnosis_context := context'.setField "result"
              (.obj [("finding", .str f), ("recommendation", .str r)]),
            status := .completed,
            updated_at := clock }
          ⟨.ok (.conclude s.id f r), s, 1⟩

/-- `DiagnosisService::update_diagnosis` (src/services/diagnosis_service.rs,
lines 75-114).  The plant-ownership check is modelled as succeeding (a
single implicit local user).  The status is checked before any mutation;
then the user message is appended to the in-memory history and a cycle
runs.  Note the appended message reaches the store only when some cycle
step commits. -/
def update_diagnosis (parse : JsonParser) (plantVitals : Json)
    (responses : List Str) (clock : Nat) (message : String)
    (persisted : DiagnosisSession) : CycleOut :=
  if persisted.status ≠ .pendingUserInput then
    ⟨.error .invalidState, persisted, 0⟩
  else
    let session := { persisted with
      diagnosis_context := pushHistory persisted.diagnosis_context "user" message }
    run_diagnosis_cycle parse plantVitals responses clock session persisted

/-- `DiagnosisService::start_diagnosis` (src/services/diagnosis_service.rs,
lines 41-73): create the session, insert the plant-vitals snapshot, persist
it (`diagnosis_repo.create`), then run a cycle. -/
def start_diagnosis (parse : JsonParser) (plantVitals : Json)
    (responses : List Str) (clock : Nat) (plant_id prompt newId : String) :
    CycleOut :=
  let session := DiagnosisSession.new plant_id prompt newId clock
  let session := { session with
    diagnosis_context := session.diagnosis_context.setField "plant_vitals" plantVitals }
  run_diagnosis_cycle parse plantVitals responses (clock + 1) session session

/-- The `conversation_history` entries of a context (empty when the context
does not have the expected shape). -/
def historyJ (context : Json) : List Json :=
  match context with
  | .obj fields =>
    match fields.lookup "conversation_history" with
    | some (.arr entries) => entries
    | _ => []
  | _ => []

/-- The conversation history of a session. -/
def historyOf (s : DiagnosisSession) : List Json :=
  historyJ s.diagnosis_context

/-- The context has the object shape with a `conversation_history` array,
as every context built by the engine does. -/
def HasHist (context : Json) : Prop :=
  ∃ fields entries, context = .obj fields ∧
    fields.lookup "conversation_history" = some (.arr entries)

/-! ### Concrete fixtures used in witnesses and counterexamples

The engine theorems hold for every `JsonParser`; the fixtures instantiate
the parser parameter with a stub grammar that recognises a few fixed AI
responses, as a test double for the external `serde_json` grammar. -/

/-- A raw AI response that the stub grammar reads as a `LOG_STATE`
instruction. -/
def rlogText : Str := "RLOG".toList

/-- A raw AI response that the stub grammar reads as an `ASK_USER`
instruction. -/
def raskText : Str := "RASK".toList

/-- A raw AI response that no strategy of the extractor can parse
(no fence, no brace, not recognised by the grammar). -/
def rbadText : Str := "RBAD".toList

/-- `{"action": "LOG_STATE", "payload": {"note": "n"}}`. -/
def logStateJson : Json :=
  .obj [("action", .str "LOG_STATE"), ("payload", .obj [("note", .str "n")])]

/-- `{"action": "ASK_USER", "payload": {"question": "Q?"}}`. -/
def askUserJson : Json :=
  .obj [("action", .str "ASK_USER"), ("payload", .obj [("question", .str "Q?")])]

/-- The stub grammar. -/
def demoParse : JsonParser := fun u =>
  if u = rlogText then some logStateJson
  else if u = raskText then some askUserJson
  else none

/-- A `{name, care_schedule}` plant-vitals snapshot. -/
def demoVitals : Json := .obj [("name", .str "fern"), ("care_schedule", .null)]

/-- A freshly created session. -/
def demoSession : DiagnosisSession := DiagnosisSession.new "p1" "help" "d1" 0

/-- A completed session. -/
def doneSession : DiagnosisSession := { demoSession with status := .completed }

/-- A payload wrapped in a fence tagged `json`: ` ```json\n<s>\n``` `. -/
def fencedJsonWrap (s : Str) : Str := fenceJson ++ '\n' :: (s ++ '\n' :: fence3)

/-- A payload wrapped in a generic fence: ` ```\n<s>\n``` `. -/
def fencedWrap (s : Str) : Str := fence3 ++ '\n' :: (s ++ '\n' :: fence3)

/-- A bare payload text for the extraction-equivalence witness. -/
def payloadText : Str := "PAYLOAD".toList

/-- A stub grammar that recognises exactly the bare payload text. -/
def payloadParse : JsonParser := fun u =>
  if u = payloadText then some (.str "p") else none

/-- The serialisation of the JSON string value `A```B`, i.e. the text
`"A```B"` (quotes included).  JSON serialisation does not escape backticks,
so a payload string may embed a complete fence. -/
def cexText : Str := "\"A```B\"".toList

/-- A stub grammar agreeing with `serde_json` on every input the
counterexample exercises: the serialisation above parses to the string
value; the fence-wrapped texts (starting with a backtick) and the
truncated fragment `"A` (unterminated string) do not parse. -/
def cexParse : JsonParser := fun u =>
  if u = cexText then some (.str "A```B") else none

/-! ### Association-list and history-preservation lemmas -/

theorem lookup_insertField_self (fields : List (String × Json)) (k : String)
    (v : Json) : (insertField fields k v).lookup k = some v := by
  induction fields with
  | nil => simp [insertField]
  | cons kv rest ih =>
    obtain ⟨k', v'⟩ := kv
    by_cases h : k' = k
    · simp [insertField, h]
    · have hb : (k == k') = false := beq_eq_false_iff_ne.mpr (Ne.symm h)
      simp [insertField, h, List.lookup_cons, hb, ih]

theorem lookup_insertField_ne (fields : List (String × Json)) (k k' : String)
    (v : Json) (h : k ≠ k') :
    (insertField fields k v).lookup k' = fields.lookup k' := by
  have hb : (k' == k) = false := beq_eq_false_iff_ne.mpr (Ne.symm h)
  induction fields with
  | nil => simp [insertField, List.lookup_cons, hb]
  | cons kv rest ih =>
    obtain ⟨k₀, v₀⟩ := kv
    by_cases h₀ : k₀ = k
    · subst h₀
      simp [insertField, List.lookup_cons, hb]
    · simp [insertField, h₀, List.lookup_cons, ih]

theorem historyJ_setField (context : Json) (k : String) (v : Json)
    (h : k ≠ "conversation_history") :
    historyJ (context.setField k v) = historyJ context := by
  cases context <;> simp [Json.setField, historyJ]
  rw [lookup_insertField_ne _ _ _ _ h]

theorem hasHist_setField (context : Json) (k : String) (v : Json)
    (h : k ≠ "conversation_history") (hh : HasHist context) :
    HasHist (context.setField k v) := by
  obtain ⟨fields, entries, rfl, hl⟩ := hh
  exact ⟨insertField fields k v, entries, rfl, by
    rw [lookup_insertField_ne _ _ _ _ h]; exact hl⟩

theorem historyJ_pushHistory (context : Json) (role msg : String)
    (h : HasHist context) :
    historyJ (pushHistory context role msg) = historyJ context ++ [histEntry role msg] := by
  obtain ⟨fields, entries, rfl, hl⟩ := h
  simp [pushHistory, hl, historyJ, lookup_insertField_self]

theorem hasHist_pushHistory (context : Json) (role msg : String)
    (h : HasHist context) : HasHist (pushHistory context role msg) := by
  obtain ⟨fields, entries, rfl, hl⟩ := h
  simp only [pushHistory, hl]
  exact ⟨_, entries ++ [histEntry role msg], rfl, lookup_insertField_self _ _ _⟩

theorem historyJ_apply_log_state (p context : Json) :
    historyJ (apply_log_state p context) = historyJ context := by
  cases context <;> simp only [apply_log_state] <;> try rfl
  split
  · split
    · simp only [historyJ]
      rw [lookup_insertField_ne _ _ _ _ (by decide)]
    · rfl
  · rfl

theorem hasHist_apply_log_state (p context : Json) (h : HasHist context) :
    HasHist (apply_log_state p context) := by
  obtain ⟨fields, entries, rfl, hl⟩ := h
  simp only [apply_log_state]
  split
  · split
    · exact ⟨_, entries, rfl, by
        rw [lookup_insertField_ne _ _ _ _ (by decide)]; exact hl⟩
    · exact ⟨fields, entries, rfl, hl⟩
  · exact ⟨fields, entries, rfl, hl⟩

theorem execute_action_historyJ (er : ExecutionResult) (context context' : Json)
    (eff : ActionEffect) (h : execute_action er context = some (context', eff)) :
    historyJ context' = historyJ context ∧ (HasHist context → HasHist context') := by
  obtain ⟨action, payload⟩ := er
  cases action with
  | getPlantVitals =>
    simp only [execute_action, Option.some.injEq, Prod.mk.injEq] at h
    obtain ⟨rfl, -⟩ := h
    exact ⟨rfl, fun hh => hh⟩
  | logState =>
    simp only [execute_action, Option.some.injEq, Prod.mk.injEq] at h
    obtain ⟨rfl, -⟩ := h
    exact ⟨historyJ_apply_log_state _ _, hasHist_apply_log_state _ _⟩
  | askUser =>
    simp only [execute_action] at h
    cases hq : (Json.getField payload "question").asStr with
    | none => rw [hq] at h; cases h
    | some q =>
      rw [hq] at h
      simp only [Option.some.injEq, Prod.mk.injEq] at h
      obtain ⟨rfl, -⟩ := h
      exact ⟨rfl, fun hh => hh⟩
  | conclude =>
    simp only [execute_action] at h
    cases hf : (Json.getField payload "finding").asStr with
    | none => rw [hf] at h; cases h
    | some f =>
      cases hr : (Json.getField payload "recommendation").asStr with
      | none => rw [hf, hr] at h; cases h
      | some r =>
        rw [hf, hr] at h
        simp only [Option.some.injEq, Prod.mk.injEq] at h
        obtain ⟨rfl, -⟩ := h
        exact ⟨rfl, fun hh => hh⟩

/-! ### Behaviour of one cycle-run -/

theorem run_cycle_history (parse : JsonParser) (plantVitals : Json) :
    ∀ (rs : List Str) (clock : Nat) (s per : DiagnosisSession),
      HasHist s.diagnosis_context →
      ((∀ i q, (run_diagnosis_cycle parse plantVitals rs clock s per).result = .ok (.ask i q) →
          historyOf (run_diagnosis_cycle parse plantVitals rs clock s per).persisted
            = historyOf s ++ [histEntry "assistant" q]) ∧
       (∀ i f r,
          (run_diagnosis_cycle parse plantVitals rs clock s per).result = .ok (.conclude i f r) →
          historyOf (run_diagnosis_cycle parse plantVitals rs clock s per).persisted
            = historyOf s) ∧
       (∀ e, (run_diagnosis_cycle parse plantVitals rs clock s per).result = .error e →
          historyOf (run_diagnosis_cycle parse plantVitals rs clock s per).persisted
              = historyOf per ∨
          historyOf (run_diagnosis_cycle parse plantVitals rs clock s per).persisted
              = historyOf s)) := by
  intro rs
  induction rs with
  | nil =>
    intro clock s per hs
    refine ⟨?_, ?_, ?_⟩
    · intro i q h
      simp [run_diagnosis_cycle] at h
    · intro i f r h
      simp [run_diagnosis_cycle] at h
    · intro e h
      left
      rfl
  | cons response rest ih =>
    intro clock s per hs
    cases hec : execute_code parse response with
    | error e₀ =>
      have hrun : run_diagnosis_cycle parse plantVitals (response :: rest) clock s per
          = ⟨.error (.exec e₀), per, 1⟩ := by
        simp [run_diagnosis_cycle, hec]
      rw [hrun]
      refine ⟨?_, ?_, ?_⟩
      · intro i q h
        simp at h
      · intro i f r h
        simp at h
      · intro e h
        left
        rfl
    | ok er =>
      cases hea : execute_action er s.diagnosis_context with
      | none =>
        have hrun : run_diagnosis_cycle parse plantVitals (response :: rest) clock s per
            = ⟨.error .actionPanicked, per, 1⟩ := by
          simp [run_diagnosis_cycle, hec, hea]
        rw [hrun]
        refine ⟨?_, ?_, ?_⟩
        · intro i q h
          simp at h
        · intro i f r h
          simp at h
        · intro e h
          left
          rfl
      | some pr =>
        obtain ⟨ctx', eff⟩ := pr
        obtain ⟨hhist, hpres⟩ := execute_action_historyJ er s.diagnosis_context ctx' eff hea
        cases eff with
        | cont =>
          have hrun : run_diagnosis_cycle parse plantVitals (response :: rest) clock s per
              = ⟨(run_diagnosis_cycle parse plantVitals rest (clock + 1)
                    { s with diagnosis_context := ctx', updated_at := clock }
                    { s with diagnosis_context := ctx', updated_at := clock }).result,
                 (run_diagnosis_cycle parse plantVitals rest (clock + 1)
                    { s with diagnosis_context := ctx', updated_at := clock }
                    { s with diagnosis_context := ctx', updated_at := clock }).persisted,
                 (run_diagnosis_cycle parse plantVitals rest (clock + 1)
                    { s with diagnosis_context := ctx', updated_at := clock }
                    { s with diagnosis_context := ctx', updated_at := clock }).iters + 1⟩ := by
            simp [run_diagnosis_cycle, hec, hea]
          have hs' : HasHist ({ s with diagnosis_context := ctx', updated_at := clock} :
              DiagnosisSession).diagnosis_context := hpres hs
          have hhs' : historyOf ({ s with diagnosis_context := ctx', updated_at := clock} :
              DiagnosisSession) = historyOf s := hhist
          obtain ⟨ihask, ihconc, iherr⟩ := ih (clock + 1) _ _ hs'
          rw [hrun]
          refine ⟨?_, ?_, ?_⟩
          · intro i q h
            rw [ihask i q h, hhs']
          · intro i f r h
            rw [ihconc i f r h, hhs']
          · intro e h
            rcases iherr e h with h1 | h1 <;> (right; rw [h1, hhs'])
        | fetchPlantVitals =>
          have hrun : run_diagnosis_cycle parse plantVitals (response :: rest) clock s per
              = ⟨(run_diagnosis_cycle parse plantVitals rest (clock + 1)
                    { s with diagnosis_context := ctx'.setField "plant_vitals" plantVitals,
                             updated_at := clock }
                    { s with diagnosis_context := ctx'.setField "plant_vitals" plantVitals,
                             updated_at := clock }).result,
                 (run_diagnosis_cycle parse plantVitals rest (clock + 1)
                    { s with diagnosis_context := ctx'.setField "plant_vitals" plantVitals,
                             updated_at := clock }
                    { s with diagnosis_context := ctx'.setField "plant_vitals" plantVitals,
                             updated_at := clock }).persisted,
                 (run_diagnosis_cycle parse plantVitals rest (clock + 1)
                    { s with diagnosis_context := ctx'.setField "plant_vitals" plantVitals,
                             updated_at := clock }
                    { s with diagnosis_context := ctx'.setField "plant_vitals" plantVitals,
                             updated_at := clock }).iters + 1⟩ := by
            simp [run_diagnosis_cycle, hec, hea]
          have hs' : HasHist ({ s with
              diagnosis_context := ctx'.setField "plant_vitals" plantVitals,
              updated_at := clock} : DiagnosisSession).diagnosis_context :=
            hasHist_setField _ _ _ (by decide) (hpres hs)
          have hhs' : historyOf ({ s with
              diagnosis_context := ctx'.setField "plant_vitals" plantVitals,
              updated_at := clock} : DiagnosisSession) = historyOf s := by
            show historyJ (ctx'.setField "plant_vitals" plantVitals) = historyOf s
            rw [historyJ_setField _ _ _ (by decide), hhist]
            rfl
          obtain ⟨ihask, ihconc, iherr⟩ := ih (clock + 1) _ _ hs'
          rw [hrun]
          refine ⟨?_, ?_, ?_⟩
          · intro i q h
            rw [ihask i q h, hhs']
          · intro i f r h
            rw [ihconc i f r h, hhs']
          · intro e h
            rcases iherr e h with h1 | h1 <;> (right; rw [h1, hhs'])
        | askUser q =>
          have hrun : run_diagnosis_cycle parse plantVitals (response :: rest) clock s per
              = ⟨.ok (.ask s.id q),
                 { s with diagnosis_context := pushHistory ctx' "assistant" q,
                          status := .pendingUserInput, updated_at := clock }, 1⟩ := by
            simp [run_diagnosis_cycle, hec, hea]
          rw [hrun]
          refine ⟨?_, ?_, ?_⟩
          · intro i q' h
            simp only [Except.ok.injEq, DiagnosisResponseDto.ask.injEq] at h
            obtain ⟨-, rfl⟩ := h
            show historyJ (pushHistory ctx' "assistant" q) = historyOf s ++ _
            rw [historyJ_pushHistory _ _ _ (hpres hs), hhist]
            rfl
          · intro i f r h
            simp at h
          · intro e h
            simp at h
        | conclude f r =>
          have hrun : run_diagnosis_cycle parse plantVitals (response :: rest) clock s per
              = ⟨.ok (.conclude s.id f r),
                 { s with
                    diagnosis_context :=
                      ctx'.setField "result"
                        (.obj [("finding", .str f), ("recommendation", .str r)]),
                    status := .completed,
                    updated_at := clock },
                 1⟩ := by
            simp [run_diagnosis_cycle, hec, hea]
          rw [hrun]
          refine ⟨?_, ?_, ?_⟩
          · intro i q h
            simp at h
          · intro i f' r' h
            show historyJ (ctx'.setField "result" _) = historyOf s
            rw [historyJ_setField _ _ _ (by decide), hhist]
            rfl
          · intro e h
            simp at h

theorem run_cycle_status (parse : JsonParser) (plantVitals : Json) :
    ∀ (rs : List Str) (clock : Nat) (s per : DiagnosisSession),
      s.status ≠ .cancelled → per.status ≠ .cancelled →
      (run_diagnosis_cycle parse plantVitals rs clock s per).persisted.status ≠ .cancelled := by
  intro rs
  induction rs with
  | nil =>
    intro clock s per hs hp
    exact hp
  | cons response rest ih =>
    intro clock s per hs hp
    cases hec : execute_code parse response with
    | error e₀ =>
      simpa [run_diagnosis_cycle, hec] using hp
    | ok er =>
      cases hea : execute_action er s.diagnosis_context with
      | none =>
        simpa [run_diagnosis_cycle, hec, hea] using hp
      | some pr =>
        obtain ⟨ctx', eff⟩ := pr
        cases eff with
        | cont =>
          have := ih (clock + 1)
            { s with diagnosis_context := ctx', updated_at := clock }
            { s with diagnosis_context := ctx', updated_at := clock } hs hs
          simpa [run_diagnosis_cycle, hec, hea] using this
        | fetchPlantVitals =>
          have := ih (clock + 1)
            { s with diagnosis_context := ctx'.setField "plant_vitals" plantVitals,
                     updated_at := clock }
            { s with diagnosis_context := ctx'.setField "plant_vitals" plantVitals,
                     updated_at := clock } hs hs
          simpa [run_diagnosis_cycle, hec, hea] using this
        | askUser q =>
          simp [run_diagnosis_cycle, hec, hea]
        | conclude f r =>
          simp [run_diagnosis_cycle, hec, hea]

theorem asStr_eq_some (j : Json) (s : String) : j.asStr = some s ↔ j = .str s := by
  cases j <;> simp [Json.asStr]

/-- With the stub grammar, `n` `LOG_STATE` responses followed by one
`ASK_USER` response drive the cycle-run through exactly `n + 1` iterations
and end in an ask-outcome. -/
theorem demo_cycle_iters :
    ∀ (n clock : Nat) (s per : DiagnosisSession),
      (run_diagnosis_cycle demoParse demoVitals
          (List.replicate n rlogText ++ [raskText]) clock s per).iters = n + 1 ∧
      (run_diagnosis_cycle demoParse demoVitals
          (List.replicate n rlogText ++ [raskText]) clock s per).result
        = .ok (.ask s.id "Q?") := by
  intro n
  induction n with
  | zero =>
    intro clock s per
    exact ⟨rfl, rfl⟩
  | succ n ihn =>
    intro clock s per
    rw [List.replicate_succ, List.cons_append]
    have hec : execute_code demoParse rlogText
        = .ok { action := .logState, payload := .obj [("note", Json.str "n")] } := rfl
    have hrun : run_diagnosis_cycle demoParse demoVitals
        (rlogText :: (List.replicate n rlogText ++ [raskText])) clock s per
        = ⟨(run_diagnosis_cycle demoParse demoVitals
              (List.replicate n rlogText ++ [raskText]) (clock + 1)
              { s with
                  diagnosis_context :=
                    apply_log_state (.obj [("note", Json.str "n")]) s.diagnosis_context,
                  updated_at := clock }
              { s with
                  diagnosis_context :=
                    apply_log_state (.obj [("note", Json.str "n")]) s.diagnosis_context,
                  updated_at := clock }).result,
           (run_diagnosis_cycle demoParse demoVitals
              (List.replicate n rlogText ++ [raskText]) (clock + 1)
              { s with
                  diagnosis_context :=
                    apply_log_state (.obj [("note", Json.str "n")]) s.diagnosis_context,
                  updated_at := clock }
              { s with
                  diagnosis_context :=
                    apply_log_state (.obj [("note", Json.str "n")]) s.diagnosis_context,
                  updated_at := clock }).persisted,
           (run_diagnosis_cycle demoParse demoVitals
              (List.replicate n rlogText ++ [raskText]) (clock + 1)
              { s with
                  diagnosis_context :=
                    apply_log_state (.obj [("note", Json.str "n")]) s.diagnosis_context,
                  updated_at := clock }
              { s with
                  diagnosis_context :=
                    apply_log_state (.obj [("note", Json.str "n")]) s.diagnosis_context,
                  updated_at := clock }).iters + 1⟩ := by
      simp [run_diagnosis_cycle, hec, execute_action]
    rw [hrun]
    obtain ⟨h1, h2⟩ := ihn (clock + 1)
      { s with
          diagnosis_context :=
            apply_log_state (.obj [("note", Json.str "n")]) s.diagnosis_context,
          updated_at := clock }
      { s with
          diagnosis_context :=
            apply_log_state (.obj [("note", Json.str "n")]) s.diagnosis_context,
          updated_at := clock }
    exact ⟨by rw [h1], h2⟩

/-! ### String-scanning lemmas for the extractor -/

theorem isPrefixOf_append_self (l r : Str) : l.isPrefixOf (l ++ r) = true := by
  simp [ List.isPrefixOf_iff_prefix]

theorem containsSeq_decomp (pat : Str) (hp : pat ≠ []) :
    ∀ pre post : Str, containsSeq pat (pre ++ pat ++ post) = true := by
  intro pre
  induction pre with
  | nil =>
    intro post
    obtain ⟨p, pt, rfl⟩ := List.exists_cons_of_ne_nil hp
    simp only [List.nil_append, List.cons_append]
    show containsSeq (p :: pt) (p :: (pt ++ post)) = true
    simp only [containsSeq, Bool.or_eq_true]
    left
    show (p :: pt).isPrefixOf ((p :: pt) ++ post) = true
    exact isPrefixOf_append_self _ _
  | cons c pre' ih =>
    intro post
    simp only [List.cons_append]
    show containsSeq pat (c :: (pre' ++ pat ++ post)) = true
    simp only [containsSeq, Bool.or_eq_true]
    right
    exact ih post

theorem containsSeq_exists (pat u : Str) (h : containsSeq pat u = true) :
    ∃ pre post, u = pre ++ pat ++ post := by
  induction u with
  | nil =>
    refine ⟨[], [], ?_⟩
    simp only [containsSeq] at h
    simp [List.isEmpty_iff.mp h]
  | cons c rest ih =>
    simp only [containsSeq, Bool.or_eq_true] at h
    rcases h with h | h
    · rw [ List.isPrefixOf_iff_prefix] at h
      obtain ⟨post, hpost⟩ := h
      exact ⟨[], post, by rw [← hpost]; simp⟩
    · obtain ⟨pre, post, heq⟩ := ih h
      exact ⟨c :: pre, post, by rw [heq]; simp⟩

theorem not_containsSeq_of_head_not_mem (p : Char) (pt u : Str) (h : p ∉ u) :
    containsSeq (p :: pt) u = false := by
  induction u with
  | nil => rfl
  | cons c rest ih =>
    have hpc : p ≠ c := fun hh => h (hh ▸ List.mem_cons_self c rest)
    have hrest : p ∉ rest := fun hh => h (List.mem_cons_of_mem _ hh)
    simp [containsSeq, ih hrest, List.isPrefixOf_cons₂, hpc]

theorem splitSeqGo_nil (pat acc : Str) : splitSeqGo pat [] acc = [acc.reverse] := by
  rw [splitSeqGo]

theorem splitSeqGo_cons_pos (pat : Str) (c : Char) (rest acc : Str)
    (h1 : pat ≠ []) (h2 : pat.isPrefixOf (c :: rest) = true) :
    splitSeqGo pat (c :: rest) acc
      = acc.reverse :: splitSeqGo pat ((c :: rest).drop pat.length) [] := by
  rw [splitSeqGo]
  simp [h1, h2]

theorem splitSeqGo_cons_neg (pat : Str) (c : Char) (rest acc : Str)
    (h2 : pat.isPrefixOf (c :: rest) = false) :
    splitSeqGo pat (c :: rest) acc = splitSeqGo pat rest (c :: acc) := by
  rw [splitSeqGo]
  simp [h2]

theorem splitSeqGo_skip (p : Char) (pt : Str) :
    ∀ (pre u acc : Str), p ∉ pre →
      splitSeqGo (p :: pt) (pre ++ u) acc = splitSeqGo (p :: pt) u (pre.reverse ++ acc) := by
  intro pre
  induction pre with
  | nil =>
    intro u acc _
    simp
  | cons c pre' ih =>
    intro u acc h
    have hpc : p ≠ c := fun hh => h (hh ▸ List.mem_cons_self c pre')
    have hpre' : p ∉ pre' := fun hh => h (List.mem_cons_of_mem _ hh)
    rw [List.cons_append, splitSeqGo_cons_neg _ _ _ _ (by
      simp [List.isPrefixOf_cons₂, hpc]), ih u (c :: acc) hpre']
    simp

theorem splitSeqGo_match (p : Char) (pt post acc : Str) :
    splitSeqGo (p :: pt) ((p :: pt) ++ post) acc
      = acc.reverse :: splitSeqGo (p :: pt) post [] := by
  rw [List.cons_append, splitSeqGo_cons_pos _ _ _ _ (by simp) (by
    rw [← List.cons_append]
    exact isPrefixOf_append_self _ _)]
  congr 1
  rw [← List.cons_append, List.drop_left]

theorem splitSeq_decomp (p : Char) (pt pre post : Str) (h : p ∉ pre) :
    splitSeq (p :: pt) (pre ++ (p :: pt) ++ post)
      = pre :: splitSeqGo (p :: pt) post [] := by
  rw [splitSeq, List.append_assoc, splitSeqGo_skip p pt pre _ [] h, splitSeqGo_match]
  simp

theorem splitSeqGo_no_occurrence (pat : Str) :
    ∀ (u acc : Str), containsSeq pat u = false →
      splitSeqGo pat u acc = [acc.reverse ++ u] := by
  intro u
  induction u with
  | nil =>
    intro acc _
    simp [splitSeqGo_nil]
  | cons c rest ih =>
    intro acc h
    simp only [containsSeq, Bool.or_eq_false_iff] at h
    rw [splitSeqGo_cons_neg _ _ _ _ h.1, ih (c :: acc) h.2]
    simp

theorem splitSeq_no_occurrence (pat u : Str) (h : containsSeq pat u = false) :
    splitSeq pat u = [u] := by
  rw [splitSeq, splitSeqGo_no_occurrence pat u [] h]
  rfl

theorem no_fenceJson_occurrence_end (u : Str) (hc : List.count tick u = 3)
    (hl : u.getLast? = some tick) : containsSeq fenceJson u = false := by
  cases hb : containsSeq fenceJson u with
  | false => rfl
  | true =>
    exfalso
    obtain ⟨pre, post, rfl⟩ := containsSeq_exists _ _ hb
    have hfj : List.count tick fenceJson = 3 := by decide
    rw [List.count_append, List.count_append, hfj] at hc
    have hpre : tick ∉ pre := List.count_eq_zero.mp (by omega)
    have hpost : tick ∉ post := List.count_eq_zero.mp (by omega)
    cases post with
    | nil =>
      rw [List.append_nil, List.getLast?_append] at hl
      have hn : fenceJson.getLast? = some 'n' := by decide
      rw [hn] at hl
      simp only [Option.or_some, Option.some.injEq] at hl
      exact absurd hl (by decide)
    | cons c post' =>
      rw [List.getLast?_append] at hl
      cases hpl : (c :: post').getLast? with
      | none => simp at hpl
      | some a =>
        have ha : a ∈ c :: post' := List.mem_of_getLast?_eq_some hpl
        rw [hpl] at hl
        simp only [Option.or_some, Option.some.injEq] at hl
        exact hpost (hl ▸ ha)

theorem no_fenceJson_occurrence_mid (s : Str) (hs : tick ∉ s) :
    containsSeq fenceJson ('\n' :: (s ++ '\n' :: fence3)) = false := by
  apply no_fenceJson_occurrence_end
  · have h1 : List.count tick s = 0 := List.count_eq_zero.mpr hs
    have h2 : List.count tick ('\n' :: fence3) = 3 := by decide
    rw [List.count_cons, List.count_append, h1, h2]
    simp [show ('\n' == tick) = false from by decide]
  · have hsh : '\n' :: (s ++ '\n' :: fence3) = ('\n' :: (s ++ ['\n'])) ++ fence3 := by
      simp
    rw [hsh, List.getLast?_append]
    have : fence3.getLast? = some tick := by decide
    rw [this]
    rfl

theorem no_fenceJson_occurrence_wrap (s : Str) (hs : tick ∉ s) :
    containsSeq fenceJson (fencedWrap s) = false := by
  cases hb : containsSeq fenceJson (fencedWrap s) with
  | false => rfl
  | true =>
    exfalso
    obtain ⟨pre, post, heq⟩ := containsSeq_exists _ _ hb
    have hU : fencedWrap s = tick :: tick :: tick :: ('\n' :: (s ++ '\n' :: fence3)) := by
      rw [fencedWrap, show fence3 = [tick, tick, tick] from by decide]
      rfl
    have hFJ : fenceJson = tick :: tick :: tick :: 'j' :: 's' :: 'o' :: 'n' :: [] := by
      decide
    rw [hU, hFJ] at heq
    rcases pre with _ | ⟨a, _ | ⟨b, _ | ⟨c, _ | ⟨d, pre'⟩⟩⟩⟩
    · simp only [List.nil_append, List.cons_append] at heq
      injection heq with _ heq
      injection heq with _ heq
      injection heq with _ heq
      injection heq with h4 _
      exact absurd h4 (by decide)
    · simp only [List.cons_append, List.nil_append] at heq
      injection heq with _ heq
      injection heq with _ heq
      injection heq with _ heq
      injection heq with h4 _
      exact absurd h4 (by decide)
    · simp only [List.cons_append, List.nil_append] at heq
      injection heq with _ heq
      injection heq with _ heq
      injection heq with _ heq
      injection heq with h4 _
      exact absurd h4 (by decide)
    · simp only [List.cons_append, List.nil_append] at heq
      injection heq with _ heq
      injection heq with _ heq
      injection heq with _ heq
      injection heq with h4 _
      exact absurd h4 (by decide)
    · simp only [List.cons_append] at heq
      injection heq with _ heq
      injection heq with _ heq
      injection heq with _ heq
      injection heq with _ heq
      have hocc : containsSeq fenceJson (s ++ '\n' :: fence3) = true := by
        rw [heq, ← hFJ]
        exact containsSeq_decomp fenceJson (by decide) pre' post
      have hnone : containsSeq fenceJson (s ++ '\n' :: fence3) = false := by
        apply no_fenceJson_occurrence_end
        · have h1 : List.count tick s = 0 := List.count_eq_zero.mpr hs
          have h2 : List.count tick ('\n' :: fence3) = 3 := by decide
          rw [List.count_append, h1, h2]
        · have hsh : s ++ '\n' :: fence3 = (s ++ ['\n']) ++ fence3 := by simp
          rw [hsh, List.getLast?_append]
          have : fence3.getLast? = some tick := by decide
          rw [this]
          rfl
      rw [hocc] at hnone
      cases hnone

/-! ### Whitespace-trimming lemmas -/

theorem dropWhile_eq_self_of_trim (s : Str) (h : trimSeq s = s) :
    s.dropWhile isWs = s := by
  cases s with
  | nil => rfl
  | cons c rest =>
    by_cases hc : isWs c = true
    · exfalso
      have hlen := congrArg List.length h
      have h1 : (c :: rest).dropWhile isWs = rest.dropWhile isWs :=
        List.dropWhile_cons_of_pos hc
      have h2 : (rest.dropWhile isWs).length ≤ rest.length :=
        (List.dropWhile_sublist isWs).length_le
      have h3 : (((c :: rest).dropWhile isWs).reverse.dropWhile isWs).length
          ≤ ((c :: rest).dropWhile isWs).reverse.length :=
        (List.dropWhile_sublist isWs).length_le
      rw [trimSeq] at hlen
      simp only [List.length_reverse, h1] at hlen h3
      simp only [List.length_cons] at hlen
      omega
    · exact List.dropWhile_cons_of_neg hc

theorem trim_segment (s : Str) (h : trimSeq s = s) :
    trimSeq ('\n' :: (s ++ ['\n'])) = s := by
  cases hs : s with
  | nil => rfl
  | cons c rest =>
    rw [← hs]
    have hd : s.dropWhile isWs = s := dropWhile_eq_self_of_trim s h
    have hne : (s.dropWhile isWs).isEmpty = false := by
      rw [hd, hs]
      rfl
    rw [trimSeq, List.dropWhile_cons_of_pos (by rfl : isWs '\n' = true),
      List.dropWhile_append, hne]
    simp only [Bool.false_eq_true, if_false, hd, List.reverse_append,
      List.reverse_cons, List.reverse_nil, List.nil_append, List.cons_append]
    rw [List.dropWhile_cons_of_pos (by rfl : isWs '\n' = true)]
    have := h
    rw [trimSeq, hd] at this
    exact this

/-! ### Claim theorems -/

/-- C1 (counterexample): the claim says no mutation from any cycle of a
failed call is committed.  Concretely: an `update_diagnosis` call whose
first cycle is a valid `LOG_STATE` and whose second cycle fails to parse
returns a parse error, yet the stored session keeps the first cycle's
committed `updated_at` refresh and `LOG_STATE` merge (and the user turn),
so it is not the pre-call session. -/
theorem update_later_cycle_failure_commits :
    (update_diagnosis demoParse demoVitals [rlogText, rbadText] 1 "hi" demoSession).result
        = .error (.exec .parseFailed) ∧
    (update_diagnosis demoParse demoVitals [rlogText, rbadText] 1 "hi"
        demoSession).persisted.updated_at ≠ demoSession.updated_at ∧
    (update_diagnosis demoParse demoVitals [rlogText, rbadText] 1 "hi"
        demoSession).persisted.diagnosis_context.getField "state"
      ≠ demoSession.diagnosis_context.getField "state" := by
  refine ⟨rfl, by decide, ?_⟩
  intro h
  have h1 : (update_diagnosis demoParse demoVitals [rlogText, rbadText] 1 "hi"
      demoSession).persisted.diagnosis_context.getField "state"
      = Json.obj [("note", Json.str "n")] := rfl
  have h2 : demoSession.diagnosis_context.getField "state" = Json.obj [] := rfl
  rw [h1, h2] at h
  simp at h

/-- C1 (amended): if the FIRST cycle of a call fails with a parse or
validation error, the persisted session is exactly as it was before the
call; mutations from earlier successful `LOG_STATE`/`GET_PLANT_VITALS`
cycles of the same call, however, are committed to the session store when
those cycles complete and survive a later cycle's failure — only the
failing cycle's own in-memory mutations are discarded. -/
theorem first_cycle_failure_rollback :
    (∀ (parse : JsonParser) (pv : Json) (r : Str) (rest : List Str) (clock : Nat)
        (s per : DiagnosisSession) (e : ExecErr),
        execute_code parse r = .error e →
        (run_diagnosis_cycle parse pv (r :: rest) clock s per).persisted = per) ∧
    (∀ (parse : JsonParser) (pv : Json) (r : Str) (rest : List Str) (clock : Nat)
        (msg : String) (per : DiagnosisSession) (e : ExecErr),
        execute_code parse r = .error e →
        (update_diagnosis parse pv (r :: rest) clock msg per).persisted = per) := by
  constructor
  · intro parse pv r rest clock s per e h
    simp [run_diagnosis_cycle, h]
  · intro parse pv r rest clock msg per e h
    by_cases hst : per.status ≠ .pendingUserInput
    · simp [update_diagnosis, hst]
    · have hst' : per.status = .pendingUserInput := not_not.mp hst
      simp [update_diagnosis, hst', run_diagnosis_cycle, h]

theorem first_cycle_failure_rollback_witness :
    execute_code demoParse rbadText = .error .parseFailed ∧
    (update_diagnosis demoParse demoVitals [rbadText] 1 "hi" demoSession).persisted
      = demoSession :=
  ⟨rfl, first_cycle_failure_rollback.2 demoParse demoVitals rbadText [] 1 "hi"
    demoSession .parseFailed rfl⟩

/-- C3 (counterexample): the claim says an `ASK_USER` payload whose
`question` is the empty string is rejected; the code accepts it, because
`validate_payload` only checks that the field is a string. -/
theorem empty_question_accepted :
    validate_payload .askUser (.obj [("question", .str "")]) = .ok () := rfl

/-- C3 (amended): payload validation enforces the per-action grammar with
no emptiness check on the string fields: a `LOG_STATE` payload must be a
non-empty key/value mapping, an `ASK_USER` payload must contain a string
field `question` (possibly empty), and a `CONCLUDE` payload must contain
string fields `finding` and `recommendation` (possibly empty); payloads
violating these shapes are rejected. -/
theorem validate_payload_characterization (payload : Json) :
    validate_payload .getPlantVitals payload = .ok () ∧
    (validate_payload .logState payload = .ok () ↔
      ∃ fields, payload = .obj fields ∧ fields ≠ []) ∧
    (validate_payload .askUser payload = .ok () ↔
      ∃ q, payload.getField "question" = .str q) ∧
    (validate_payload .conclude payload = .ok () ↔
      ((∃ f, payload.getField "finding" = .str f) ∧
       (∃ r, payload.getField "recommendation" = .str r))) := by
  refine ⟨rfl, ?_, ?_, ?_⟩
  · cases payload with
    | obj fields =>
      by_cases he : fields.isEmpty
      · simp [validate_payload, he, List.isEmpty_iff.mp he]
      · simp only [validate_payload, he, if_false, Bool.false_eq_true]
        simp only [List.isEmpty_iff] at he
        simp [he]
    | null => simp [validate_payload]
    | bool b => simp [validate_payload]
    | num n => simp [validate_payload]
    | str s => simp [validate_payload]
    | arr items => simp [validate_payload]
  · cases hq : (payload.getField "question").asStr with
    | none =>
      simp only [validate_payload, hq]
      constructor
      · intro h
        cases h
      · rintro ⟨q, hq'⟩
        rw [hq', Json.asStr] at hq
        cases hq
    | some q =>
      simp only [validate_payload, hq]
      simp [(asStr_eq_some _ _).mp hq]
  · cases hf : (payload.getField "finding").asStr with
    | none =>
      simp only [validate_payload, hf]
      constructor
      · intro h
        cases h
      · rintro ⟨⟨f, hf'⟩, -⟩
        rw [hf', Json.asStr] at hf
        cases hf
    | some f =>
      cases hr : (payload.getField "recommendation").asStr with
      | none =>
        simp only [validate_payload, hf, hr]
        constructor
        · intro h
          cases h
        · rintro ⟨-, r, hr'⟩
          rw [hr', Json.asStr] at hr
          cases hr
      | some r =>
        simp only [validate_payload, hf, hr]
        simp [(asStr_eq_some _ _).mp hf, (asStr_eq_some _ _).mp hr]

/-- C4 : on the structured value handed to the validator, the action check
comes first — a missing or non-string `action` field fails with the
missing-action error, a string naming none of the four actions fails with
`InvalidAction` (both regardless of the payload), and only then an absent
or null `payload` fails with `MissingPayload`.  (The spec's `InvalidAction`
taxon covers both action-check failures: "unrecognized or missing name".) -/
theorem action_check_before_payload_check (response : Json) :
    ((response.getField "action").asStr = none →
      validate_response response = .error .missingActionField) ∧
    (∀ s, (response.getField "action").asStr = some s →
      DiagnosisAction.from_str s = none →
      validate_response response = .error .invalidAction) ∧
    (∀ s a, (response.getField "action").asStr = some s →
      DiagnosisAction.from_str s = some a →
      (response.getField "payload").isNull = true →
      validate_response response = .error .missingPayload) := by
  refine ⟨?_, ?_, ?_⟩
  · intro h
    simp [validate_response, h]
  · intro s h1 h2
    simp [validate_response, h1, h2]
  · intro s a h1 h2 h3
    simp [validate_response, h1, h2, h3]

theorem action_check_before_payload_check_witness :
    validate_response (Json.obj []) = .error .missingActionField ∧
    validate_response (Json.obj [("action", Json.str "FOO")]) = .error .invalidAction ∧
    validate_response (Json.obj [("action", Json.str "LOG_STATE")]) = .error .missingPayload :=
  ⟨(action_check_before_payload_check _).1 rfl,
   (action_check_before_payload_check _).2.1 "FOO" rfl rfl,
   (action_check_before_payload_check _).2.2 "LOG_STATE" .logState rfl rfl rfl⟩

/-- C5 : conversation history is append-only and chronological: a new
session's history is seeded with the user's prompt; an `update` call leaves
the stored history an extension of the old one, and on success appends
exactly the user turn plus (for an ask-outcome) exactly one assistant turn;
a cycle-run with an ask-outcome appends exactly one assistant entry.  No
operation removes, rewrites or reorders existing entries. -/
theorem conversation_history_append_only :
    (∀ plant_id prompt id now,
        historyOf (DiagnosisSession.new plant_id prompt id now)
          = [histEntry "user" prompt]) ∧
    (∀ (parse : JsonParser) (pv : Json) (rs : List Str) (clock : Nat) (msg : String)
        (per : DiagnosisSession), HasHist per.diagnosis_context →
        (historyOf per <+: historyOf (update_diagnosis parse pv rs clock msg per).persisted) ∧
        (∀ i q, (update_diagnosis parse pv rs clock msg per).result = .ok (.ask i q) →
            historyOf (update_diagnosis parse pv rs clock msg per).persisted
              = historyOf per ++ [histEntry "user" msg, histEntry "assistant" q]) ∧
        (∀ i f r, (update_diagnosis parse pv rs clock msg per).result = .ok (.conclude i f r) →
            historyOf (update_diagnosis parse pv rs clock msg per).persisted
              = historyOf per ++ [histEntry "user" msg])) ∧
    (∀ (parse : JsonParser) (pv : Json) (rs : List Str) (clock : Nat)
        (s per : DiagnosisSession), HasHist s.diagnosis_context →
        ∀ i q, (run_diagnosis_cycle parse pv rs clock s per).result = .ok (.ask i q) →
          historyOf (run_diagnosis_cycle parse pv rs clock s per).persisted
            = historyOf s ++ [histEntry "assistant" q]) := by
  refine ⟨?_, ?_, ?_⟩
  · intro plant_id prompt id now
    rfl
  · intro parse pv rs clock msg per hper
    by_cases hst : per.status ≠ .pendingUserInput
    · have hrun : update_diagnosis parse pv rs clock msg per
          = ⟨.error .invalidState, per, 0⟩ := by
        simp [update_diagnosis, hst]
      rw [hrun]
      exact ⟨List.prefix_refl _, fun i q h => by simp at h, fun i f r h => by simp at h⟩
    · have hst' : per.status = .pendingUserInput := not_not.mp hst
      have hrun : update_diagnosis parse pv rs clock msg per
          = run_diagnosis_cycle parse pv rs clock
              { per with
                  diagnosis_context := pushHistory per.diagnosis_context "user" msg }
              per := by
        simp [update_diagnosis, hst']
      have hsU : HasHist ({ per with
          diagnosis_context := pushHistory per.diagnosis_context "user" msg} :
          DiagnosisSession).diagnosis_context :=
        hasHist_pushHistory _ _ _ hper
      have hhU : historyOf ({ per with
          diagnosis_context := pushHistory per.diagnosis_context "user" msg} :
          DiagnosisSession) = historyOf per ++ [histEntry "user" msg] :=
        historyJ_pushHistory _ _ _ hper
      obtain ⟨cask, cconc, cerr⟩ := run_cycle_history parse pv rs clock _ per hsU
      rw [hrun]
      refine ⟨?_, ?_, ?_⟩
      · cases hres : (run_diagnosis_cycle parse pv rs clock
            { per with
                diagnosis_context := pushHistory per.diagnosis_context "user" msg }
            per).result with
        | ok dto =>
          cases dto with
          | ask i q =>
            rw [cask i q hres, hhU, List.append_assoc]
            exact List.prefix_append _ _
          | conclude i f r =>
            rw [cconc i f r hres, hhU]
            exact List.prefix_append _ _
        | error e =>
          rcases cerr e hres with h1 | h1
          · rw [h1]
          · rw [h1, hhU]
            exact List.prefix_append _ _
      · intro i q h
        rw [cask i q h, hhU, List.append_assoc]
        rfl
      · intro i f r h
        rw [cconc i f r h, hhU]
  · intro parse pv rs clock s per hsx i q h
    exact (run_cycle_history parse pv rs clock s per hsx).1 i q h

theorem conversation_history_append_only_witness :
    historyOf (DiagnosisSession.new "p1" "help" "d1" 0) = [histEntry "user" "help"] ∧
    historyOf (update_diagnosis demoParse demoVitals [raskText] 1 "hi"
        demoSession).persisted
      = historyOf demoSession ++ [histEntry "user" "hi", histEntry "assistant" "Q?"] :=
  ⟨conversation_history_append_only.1 "p1" "help" "d1" 0,
   (conversation_history_append_only.2.1 demoParse demoVitals [raskText] 1 "hi"
      demoSession ⟨_, _, rfl, rfl⟩).2.1 "d1" "Q?" rfl⟩

/-- C6 : calling `update` on a session whose status is not
`PendingUserInput` fails with `InvalidState` before any mutation: the
stored session is returned unchanged, no user message is appended, and no
AI cycle runs (zero iterations). -/
theorem update_invalid_state_rejected (parse : JsonParser) (plantVitals : Json)
    (responses : List Str) (clock : Nat) (message : String)
    (per : DiagnosisSession) (h : per.status ≠ .pendingUserInput) :
    update_diagnosis parse plantVitals responses clock message per
      = ⟨.error .invalidState, per, 0⟩ := by
  simp [update_diagnosis, h]

theorem update_invalid_state_rejected_witness :
    doneSession.status ≠ DiagnosisStatus.pendingUserInput ∧
    update_diagnosis demoParse demoVitals [raskText] 1 "hi" doneSession
      = ⟨.error .invalidState, doneSession, 0⟩ :=
  ⟨by decide, update_invalid_state_rejected demoParse demoVitals [raskText] 1 "hi"
    doneSession (by decide)⟩

/-- C8 : a cycle-run has no iteration cap: a successful result is always an
ask- or conclude-outcome, and for every `n` there is a sequence of `n`
valid `LOG_STATE` responses (plus a final `ASK_USER`) that makes the
cycle-run iterate more than `n` times — termination is bounded only by the
AI client's responses. -/
theorem cycle_no_iteration_cap :
    (∀ (parse : JsonParser) (pv : Json) (rs : List Str) (clock : Nat)
        (s per : DiagnosisSession) (dto : DiagnosisResponseDto),
        (run_diagnosis_cycle parse pv rs clock s per).result = .ok dto →
        (∃ i q, dto = .ask i q) ∨ (∃ i f r, dto = .conclude i f r)) ∧
    (∀ (n clock : Nat) (s per : DiagnosisSession),
        ∃ rs : List Str,
          n ≤ (run_diagnosis_cycle demoParse demoVitals rs clock s per).iters ∧
          (run_diagnosis_cycle demoParse demoVitals rs clock s per).result
            = .ok (.ask s.id "Q?")) := by
  constructor
  · intro _ _ _ _ _ _ dto _
    cases dto with
    | ask i q => exact Or.inl ⟨i, q, rfl⟩
    | conclude i f r => exact Or.inr ⟨i, f, r, rfl⟩
  · intro n clock s per
    refine ⟨List.replicate n rlogText ++ [raskText], ?_, (demo_cycle_iters n clock s per).2⟩
    rw [(demo_cycle_iters n clock s per).1]
    omega

theorem cycle_no_iteration_cap_witness :
    (run_diagnosis_cycle demoParse demoVitals [raskText] 0 demoSession
        demoSession).result = .ok (.ask "d1" "Q?") ∧
    ((∃ i q, DiagnosisResponseDto.ask "d1" "Q?" = .ask i q) ∨
     (∃ i f r, DiagnosisResponseDto.ask "d1" "Q?" = .conclude i f r)) :=
  ⟨rfl, cycle_no_iteration_cap.1 demoParse demoVitals [raskText] 0 demoSession
    demoSession (DiagnosisResponseDto.ask "d1" "Q?") rfl⟩

/-- C9 : for an `ExecutionResult` that passed `validate_payload`, the
unchecked string extractions in `execute_action` (`question` for
`ASK_USER`, `finding`/`recommendation` for `CONCLUDE`) cannot panic: the
validated fields are present strings, so the panic branch (`none` in the
model) is unreachable. -/
theorem validated_extractions_never_panic (action : DiagnosisAction)
    (payload context : Json) (h : validate_payload action payload = .ok ()) :
    execute_action { action := action, payload := payload } context ≠ none := by
  cases action with
  | getPlantVitals => simp [execute_action]
  | logState => simp [execute_action]
  | askUser =>
    cases hq : (payload.getField "question").asStr with
    | none => simp [validate_payload, hq] at h
    | some q => simp [execute_action, hq]
  | conclude =>
    cases hf : (payload.getField "finding").asStr with
    | none => simp [validate_payload, hf] at h
    | some f =>
      cases hr : (payload.getField "recommendation").asStr with
      | none => simp [validate_payload, hf, hr] at h
      | some r => simp [execute_action, hf, hr]

theorem validated_extractions_never_panic_witness :
    validate_payload .askUser (.obj [("question", Json.str "Q?")]) = .ok () ∧
    execute_action { action := DiagnosisAction.askUser,
                     payload := Json.obj [("question", Json.str "Q?")] }
        (Json.obj []) ≠ none :=
  ⟨rfl, validated_extractions_never_panic .askUser (.obj [("question", Json.str "Q?")])
    (Json.obj []) rfl⟩

/-- C10 : a `Cancelled` status is unreachable through the engine:
`DiagnosisSession::new` creates every session as `PendingUserInput`, the
only status assignments in the cycle are `PendingUserInput` (ask) and
`Completed` (conclude), and `start`/`update` preserve not-cancelled. -/
theorem cancelled_status_unreachable :
    (∀ plant_id prompt id now,
        (DiagnosisSession.new plant_id prompt id now).status
          = DiagnosisStatus.pendingUserInput) ∧
    (∀ (parse : JsonParser) (pv : Json) (rs : List Str) (clock : Nat)
        (s per : DiagnosisSession),
        s.status ≠ .cancelled → per.status ≠ .cancelled →
        (run_diagnosis_cycle parse pv rs clock s per).persisted.status ≠ .cancelled) ∧
    (∀ (parse : JsonParser) (pv : Json) (rs : List Str) (clock : Nat) (msg : String)
        (per : DiagnosisSession), per.status ≠ .cancelled →
        (update_diagnosis parse pv rs clock msg per).persisted.status ≠ .cancelled) ∧
    (∀ (parse : JsonParser) (pv : Json) (rs : List Str) (clock : Nat)
        (plant_id prompt newId : String),
        (start_diagnosis parse pv rs clock plant_id prompt newId).persisted.status
          ≠ .cancelled) := by
  refine ⟨fun _ _ _ _ => rfl, fun parse pv => run_cycle_status parse pv, ?_, ?_⟩
  · intro parse pv rs clock msg per hper
    by_cases hst : per.status ≠ .pendingUserInput
    · have hrun : update_diagnosis parse pv rs clock msg per
          = ⟨.error .invalidState, per, 0⟩ := by
        simp [update_diagnosis, hst]
      rw [hrun]
      exact hper
    · have hst' : per.status = .pendingUserInput := not_not.mp hst
      have hrun : update_diagnosis parse pv rs clock msg per
          = run_diagnosis_cycle parse pv rs clock
              { per with
                  diagnosis_context := pushHistory per.diagnosis_context "user" msg }
              per := by
        simp [update_diagnosis, hst']
      rw [hrun]
      exact run_cycle_status parse pv rs clock _ per hper hper
  · intro parse pv rs clock plant_id prompt newId
    exact run_cycle_status parse pv rs (clock + 1) _ _
      (fun h => nomatch h) (fun h => nomatch h)

/-- C2 (code evaluation at the failing input): on the input `"} a {"` —
which parses under no strategy, contains no fence, and has its first `{`
more than one position after its last `}` — the extractor's brace fallback
computes the inclusive slice `&response[4..=0]`, which panics in Rust
instead of failing; the claim (and spec §4.1) say the call merely fails
when every strategy fails. -/
theorem brace_fallback_slice_out_of_range (parse : JsonParser)
    (h : parse ['}', ' ', 'a', ' ', '{'] = none) :
    parse_ai_response parse ['}', ' ', 'a', ' ', '{'] = .error .sliceOutOfRange := by
  simp only [parse_ai_response, h]
  rfl

theorem brace_fallback_slice_out_of_range_witness :
    (fun _ : Str => (none : Option Json)) ['}', ' ', 'a', ' ', '{'] = none ∧
    parse_ai_response (fun _ => none) ['}', ' ', 'a', ' ', '{']
      = .error .sliceOutOfRange :=
  ⟨rfl, brace_fallback_slice_out_of_range (fun _ => none) rfl⟩

/-- C7 (counterexample): the extraction-idempotence claim fails for
payloads whose serialisation embeds a complete fence.  The JSON string
value `A```B` serialises to `"A```B"` (backticks are not escaped); under a
grammar agreeing with `serde_json` on every input exercised, the extractor
succeeds on the bare serialisation but fails on both fenced wrappings: the
fenced extraction cuts the content at the first embedded ` ``` `, leaving
the unparseable fragment `"A`. -/
theorem embedded_fence_breaks_equivalence :
    parse_ai_response cexParse cexText = .ok (.str "A```B") ∧
    parse_ai_response cexParse (fencedJsonWrap cexText) = .error .parseFailed ∧
    parse_ai_response cexParse (fencedWrap cexText) = .error .parseFailed := by
  have hF3c : fence3 = tick :: "``".toList := by decide
  have hFJc : fenceJson = tick :: "``json".toList := by decide
  have hpostd : '\n' :: (cexText ++ '\n' :: fence3)
      = "\n\"A".toList ++ fence3 ++ "B\"\n```".toList := by decide
  have hinner : splitSeq fence3 ('\n' :: (cexText ++ '\n' :: fence3))
      = "\n\"A".toList :: splitSeqGo fence3 ("B\"\n```".toList) [] := by
    rw [hpostd, hF3c, splitSeq_decomp tick _ _ _ (by decide)]
  have htrimNA : trimSeq ("\n\"A".toList) = "\"A".toList := by decide
  have hpA : cexParse ("\"A".toList) = none := rfl
  refine ⟨rfl, ?_, ?_⟩
  · have hp1 : cexParse (fencedJsonWrap cexText) = none := rfl
    have hc1 : containsSeq fenceJson (fencedJsonWrap cexText) = true := by decide
    have houter : splitSeq fenceJson (fencedJsonWrap cexText)
        = [] :: ['\n' :: (cexText ++ '\n' :: fence3)] := by
      have hstep : splitSeq fenceJson (fencedJsonWrap cexText)
          = [] :: splitSeqGo fenceJson ('\n' :: (cexText ++ '\n' :: fence3)) [] := by
        show splitSeqGo fenceJson (fenceJson ++ ('\n' :: (cexText ++ '\n' :: fence3))) []
            = [] :: splitSeqGo fenceJson ('\n' :: (cexText ++ '\n' :: fence3)) []
        rw [hFJc]
        exact splitSeqGo_match tick _ _ []
      rw [hstep, splitSeqGo_no_occurrence fenceJson _ [] (by decide)]
      rfl
    simp only [parse_ai_response, hp1, hc1, if_true, houter, List.get?, hinner,
      List.head?, htrimNA, hpA]
  · have hp2 : cexParse (fencedWrap cexText) = none := rfl
    have hnc2 : containsSeq fenceJson (fencedWrap cexText) = false := by decide
    have hc2 : containsSeq fence3 (fencedWrap cexText) = true := by decide
    have houter2 : splitSeq fence3 (fencedWrap cexText)
        = [] :: ("\n\"A".toList :: splitSeqGo fence3 ("B\"\n```".toList) []) := by
      have hstep : splitSeq fence3 (fencedWrap cexText)
          = [] :: splitSeqGo fence3 ('\n' :: (cexText ++ '\n' :: fence3)) [] := by
        show splitSeqGo fence3 (fence3 ++ ('\n' :: (cexText ++ '\n' :: fence3))) []
            = [] :: splitSeqGo fence3 ('\n' :: (cexText ++ '\n' :: fence3)) []
        rw [hF3c]
        exact splitSeqGo_match tick _ _ []
      rw [hstep]
      have hgo : splitSeqGo fence3 ('\n' :: (cexText ++ '\n' :: fence3)) []
          = splitSeq fence3 ('\n' :: (cexText ++ '\n' :: fence3)) := rfl
      rw [hgo, hinner]
    have hinner2 : splitSeq fence3 ("\n\"A".toList) = ["\n\"A".toList] :=
      splitSeq_no_occurrence _ _ (by decide)
    simp only [parse_ai_response, hp2, hnc2, Bool.false_eq_true, if_false,
      hc2, if_true, houter2, List.get?, hinner2, List.head?, htrimNA, hpA]

/-- C7 (amended): the extractor treats the three formats equivalently for
every payload whose serialisation contains no backticks: for every JSON
grammar and payload value, if the bare serialisation parses to the value,
carries no surrounding whitespace and contains no backtick, and the
fence-wrapped texts are not themselves valid JSON (they start with a
backtick), then the bare form, the ` ```json `-tagged form and the
generic-fenced form all yield that same value.  A serialisation that
itself embeds a ` ``` ` fence is excluded: there the fenced extractions
truncate at the embedded fence and fail (see the counterexample). -/
theorem extraction_format_equivalence (parse : JsonParser) (v : Json) (s : Str)
    (h1 : parse s = some v)
    (h2 : trimSeq s = s)
    (h3 : ∀ c ∈ s, c ∉ fence3)
    (h4 : parse (fencedJsonWrap s) = none)
    (h5 : parse (fencedWrap s) = none) :
    parse_ai_response parse s = .ok v ∧
    parse_ai_response parse (fencedJsonWrap s) = .ok v ∧
    parse_ai_response parse (fencedWrap s) = .ok v := by
  have htick : tick ∉ s := fun hm => (h3 tick hm) (by decide)
  have hnotin : tick ∉ '\n' :: (s ++ ['\n']) := by
    intro hm
    rcases List.mem_cons.mp hm with h' | h'
    · exact absurd h' (by decide)
    · rcases List.mem_append.mp h' with h'' | h''
      · exact htick h''
      · exact absurd (List.mem_singleton.mp h'') (by decide)
  have hFJc : fenceJson = tick :: "``json".toList := by decide
  have hF3c : fence3 = tick :: "``".toList := by decide
  have htrim : trimSeq ('\n' :: (s ++ ['\n'])) = s := trim_segment s h2
  -- the text between the opening fence and the closing fence
  have hshape : '\n' :: (s ++ '\n' :: fence3)
      = ('\n' :: (s ++ ['\n'])) ++ fence3 ++ [] := by
    simp
  have hinner : splitSeq fence3 ('\n' :: (s ++ '\n' :: fence3))
      = ('\n' :: (s ++ ['\n'])) :: [[]] := by
    rw [hshape, hF3c, splitSeq_decomp tick _ _ _ hnotin, splitSeqGo_nil]
    rfl
  -- the json-tagged wrapping
  have hcontainJ : containsSeq fenceJson (fencedJsonWrap s) = true :=
    containsSeq_decomp fenceJson (by decide) [] ('\n' :: (s ++ '\n' :: fence3))
  have houterJ : splitSeq fenceJson (fencedJsonWrap s)
      = [] :: ['\n' :: (s ++ '\n' :: fence3)] := by
    have hmid : containsSeq fenceJson ('\n' :: (s ++ '\n' :: fence3)) = false :=
      no_fenceJson_occurrence_mid s htick
    have hstep : splitSeq fenceJson (fencedJsonWrap s)
        = [] :: splitSeqGo fenceJson ('\n' :: (s ++ '\n' :: fence3)) [] := by
      rw [fencedJsonWrap, hFJc]
      exact splitSeq_decomp tick _ [] _ (by simp)
    rw [hstep, splitSeqGo_no_occurrence _ _ _ hmid]
    rfl
  -- the generic wrapping
  have hncJ : containsSeq fenceJson (fencedWrap s) = false :=
    no_fenceJson_occurrence_wrap s htick
  have hcontain3 : containsSeq fence3 (fencedWrap s) = true :=
    containsSeq_decomp fence3 (by decide) [] ('\n' :: (s ++ '\n' :: fence3))
  have houter3 : splitSeq fence3 (fencedWrap s)
      = [] :: (('\n' :: (s ++ ['\n'])) :: [[]]) := by
    have hstep : splitSeq fence3 (fencedWrap s)
        = [] :: splitSeqGo fence3 ('\n' :: (s ++ '\n' :: fence3)) [] := by
      rw [fencedWrap, hF3c]
      exact splitSeq_decomp tick _ [] _ (by simp)
    rw [hstep]
    have hgo : splitSeqGo fence3 ('\n' :: (s ++ '\n' :: fence3)) []
        = splitSeq fence3 ('\n' :: (s ++ '\n' :: fence3)) := rfl
    rw [hgo, hinner]
  have hinner3 : splitSeq fence3 ('\n' :: (s ++ ['\n'])) = ['\n' :: (s ++ ['\n'])] := by
    apply splitSeq_no_occurrence
    rw [hF3c]
    exact not_containsSeq_of_head_not_mem tick _ _ hnotin
  refine ⟨?_, ?_, ?_⟩
  · simp only [parse_ai_response, h1]
  · simp only [parse_ai_response, h4, hcontainJ, if_true, houterJ, hinner,
      List.get?, List.head?, htrim, h1]
  · simp only [parse_ai_response, h5, hncJ, Bool.false_eq_true, if_false,
      hcontain3, if_true, houter3, hinner3, List.get?, List.head?, htrim, h1]

theorem extraction_format_equivalence_witness :
    payloadParse payloadText = some (Json.str "p") ∧
    trimSeq payloadText = payloadText ∧
    (∀ c ∈ payloadText, c ∉ fence3) ∧
    payloadParse (fencedJsonWrap payloadText) = none ∧
    payloadParse (fencedWrap payloadText) = none ∧
    parse_ai_response payloadParse payloadText = .ok (.str "p") ∧
    parse_ai_response payloadParse (fencedJsonWrap payloadText) = .ok (.str "p") ∧
    parse_ai_response payloadParse (fencedWrap payloadText) = .ok (.str "p") := by
  have main := extraction_format_equivalence payloadParse (.str "p") payloadText
    rfl (by decide) (by decide) rfl rfl
  exact ⟨rfl, by decide, by decide, rfl, rfl, main.1, main.2.1, main.2.2⟩

theorem cancelled_status_unreachable_witness :
    demoSession.status ≠ DiagnosisStatus.cancelled ∧
    (update_diagnosis demoParse demoVitals [raskText] 1 "hi"
        demoSession).persisted.status ≠ .cancelled :=
  ⟨by decide, cancelled_status_unreachable.2.2.1 demoParse demoVitals [raskText] 1 "hi"
    demoSession (by decide)⟩

end PlantId
